import Mathlib

/-!
Verification of the LatticeFlow join-semilattice interface
(src/lattices/lattice.h) against its specification.

The C++ header defines an abstract CRTP interface `Lattice<L, T>` with two
pure virtual operations, `get` (returns the observable value of type `T`)
and `join` (merges another instance of the implementing type `L` into
`self`, mutating `self` in place), plus three free comparison operators
derived generically from them:

  operator==(l, r) : returns l.get() == r.get()
  operator!=(l, r) : returns l.get() != r.get()
  operator<=(l, r) : takes l BY VALUE (a copy), runs l.join(r) on the
                     copy, returns l.get() == r.get()

We embed an implementing type as a dictionary of its two operations over a
carrier type `L` and a domain type `T`.  The in-place mutation of `join` is
modelled by explicit state passing: the member call `self.join(other)`
becomes a function from the pre-state of `self` to its post-state, with
`other` passed as a value that is never threaded through (the C++ parameter
is a const reference, so the callee cannot write to it).  Call-protocol
wrappers (`joinCall`, `getCall`, `leOpCall`) make the caller-visible state
before and after each call explicit, so that the frame claims of the
specification are expressible.
-/

namespace latticeflow

/-- Embedding of the CRTP interface `Lattice<L, T>`: an implementing type
`L` over domain type `T` supplies the two pure virtual operations.  `get`
reads the observable value; `join` is the in-place merge, modelled as a
map from the pre-state of `self` (first argument) and the value of `other`
(second argument) to the post-state of `self`. -/
structure Lattice (L : Type) (T : Type) where
  get : L → T
  join : L → L → L

/-- Embedding of `operator==(const T& l, const T& r) { return l.get() == r.get(); }`.
The domain type must support equality comparison. -/
def eqOp {L T : Type} [DecidableEq T] (inst : Lattice L T) (l r : L) : Bool :=
  decide (inst.get l = inst.get r)

/-- Embedding of `operator!=(const T& l, const T& r) { return l.get() != r.get(); }`. -/
def neOp {L T : Type} [DecidableEq T] (inst : Lattice L T) (l r : L) : Bool :=
  decide (inst.get l ≠ inst.get r)

/-- Embedding of the body of `operator<=`: after the copy of the left
operand has absorbed the right operand via `join`, compare observable
values.  The first argument is already the by-value copy of the caller
value. -/
def leOp {L T : Type} [DecidableEq T] (inst : Lattice L T) (l r : L) : Bool :=
  decide (inst.get (inst.join l r) = inst.get r)

/-- Call protocol of `self.join(other)`: the state is the pair
(self, other); `self` is mutated to the join, `other` is a const reference
the callee cannot write through, so its state is returned unchanged. -/
def joinCall {L T : Type} (inst : Lattice L T) (s : L × L) : L × L :=
  (inst.join s.1 s.2, s.2)

/-- Call protocol of `self.get()`: a const member function; it returns the
observable value and the (unchanged) state of the receiver. -/
def getCall {L T : Type} (inst : Lattice L T) (x : L) : T × L :=
  (inst.get x, x)

/-- Call protocol of `operator<=(T l, const T& r)`: the left operand is
received by value, so the callee works on a copy; `join` mutates only that
copy, and the caller state (both operands) is returned unchanged together
with the boolean result. -/
def leOpCall {L T : Type} [DecidableEq T] (inst : Lattice L T) (s : L × L) :
    Bool × (L × L) :=
  let copy := s.1
  let step := joinCall inst (copy, s.2)
  (decide (inst.get step.1 = inst.get step.2), (s.1, s.2))

/-- The partial order induced by `join`, as the specification words it:
`x ≤ y` holds iff joining `y` into (a copy of) `x` yields a value
observationally equal, via `get`, to `y`. -/
def inducedLe {L T : Type} (inst : Lattice L T) (x y : L) : Prop :=
  inst.get (inst.join x y) = inst.get y

/-- Observational idempotence: `join(x, x)` observationally equals `x`. -/
def ObsIdem {L T : Type} (inst : Lattice L T) : Prop :=
  ∀ x, inst.get (inst.join x x) = inst.get x

/-- Observational commutativity: `join(x, y)` observationally equals
`join(y, x)`. -/
def ObsComm {L T : Type} (inst : Lattice L T) : Prop :=
  ∀ x y, inst.get (inst.join x y) = inst.get (inst.join y x)

/-- Observational associativity: `join(x, join(y, z))` observationally
equals `join(join(x, y), z)`. -/
def ObsAssoc {L T : Type} (inst : Lattice L T) : Prop :=
  ∀ x y z,
    inst.get (inst.join x (inst.join y z)) =
      inst.get (inst.join (inst.join x y) z)

/-- `join` respects observational equality: joining observationally equal
values (on either side) yields observationally equal results. -/
def ObsCongr {L T : Type} (inst : Lattice L T) : Prop :=
  ∀ a b c, inst.get a = inst.get b →
    inst.get (inst.join a c) = inst.get (inst.join b c) ∧
      inst.get (inst.join c a) = inst.get (inst.join c b)

/-! ### Concrete implementing types used as witnesses and countermodels -/

/-- An integer-max lattice (the worked example of the specification): the
state is the observable value itself and `join` takes the maximum. -/
def maxNat : Lattice Nat Nat where
  get := fun n => n
  join := Nat.max

/-- Bounded check that a natural number is a power of two. -/
def isPow2 (n : Nat) : Bool :=
  (List.range (n + 1)).any fun k => n == 2 ^ k

/-- A legal implementing type whose internal state is richer than its
observable value: the state is a natural number, `join` is addition, and
`get` observes only whether the state is a power of two.  Its `join` is
associative, commutative and observationally idempotent, but it does not
respect observational equality. -/
def sumPow : Lattice Nat Bool where
  get := fun n => isPow2 n
  join := fun a b => a + b

lemma isPow2_iff (n : Nat) : isPow2 n = true ↔ ∃ k, k ≤ n ∧ n = 2 ^ k := by
  simp only [isPow2, List.any_eq_true, List.mem_range, Nat.lt_succ_iff,
    beq_iff_eq]

lemma pow2_double (a : Nat) :
    (∃ k, k ≤ a + a ∧ a + a = 2 ^ k) ↔ ∃ k, k ≤ a ∧ a = 2 ^ k := by
  constructor
  · rintro ⟨k, -, he⟩
    cases k with
    | zero =>
      rw [pow_zero] at he
      exact absurd he (by omega)
    | succ k =>
      have hp : (2 : ℕ) ^ (k + 1) = 2 * 2 ^ k := by
        rw [pow_succ]; ring
      have hk := Nat.lt_two_pow k
      exact ⟨k, by omega, by omega⟩
  · rintro ⟨k, -, he⟩
    have hp : (2 : ℕ) ^ (k + 1) = 2 * 2 ^ k := by
      rw [pow_succ]; ring
    have hk := Nat.lt_two_pow (k + 1)
    exact ⟨k + 1, by omega, by omega⟩

lemma isPow2_double (a : Nat) : isPow2 (a + a) = isPow2 a := by
  have h : isPow2 (a + a) = true ↔ isPow2 a = true := by
    rw [isPow2_iff, isPow2_iff]
    exact pow2_double a
  cases h1 : isPow2 (a + a) <;> cases h2 : isPow2 a <;> simp_all

lemma sumPow_assoc : ObsAssoc sumPow := fun x y z => by
  show isPow2 (x + (y + z)) = isPow2 (x + y + z)
  rw [Nat.add_assoc]

lemma sumPow_comm : ObsComm sumPow := fun x y => by
  show isPow2 (x + y) = isPow2 (y + x)
  rw [Nat.add_comm]

lemma sumPow_idem : ObsIdem sumPow := fun x => by
  show isPow2 (x + x) = isPow2 x
  exact isPow2_double x

lemma maxNat_assoc : ObsAssoc maxNat := fun x y z => by
  show Nat.max x (Nat.max y z) = Nat.max (Nat.max x y) z
  exact (Nat.max_assoc x y z).symm

lemma maxNat_comm : ObsComm maxNat := fun x y => by
  show Nat.max x y = Nat.max y x
  exact Nat.max_comm x y

lemma maxNat_idem : ObsIdem maxNat := fun x => by
  show Nat.max x x = x
  exact Nat.max_self x

lemma maxNat_congr : ObsCongr maxNat := fun a b c h => by
  have hab : a = b := h
  constructor
  · show Nat.max a c = Nat.max b c
    rw [hab]
  · show Nat.max c a = Nat.max c b
    rw [hab]

/-! ### Claim theorems -/

/-- Claim C1: for every pair of lattice values of the same implementing
type, the derived less-or-equal returns true iff joining the right operand
into a copy of the left yields a value whose observable value, via `get`,
equals the observable value of the right operand; that is, the operator
computes exactly the induced partial order of the specification. -/
theorem le_iff_induced_order {L T : Type} [DecidableEq T]
    (inst : Lattice L T) (l r : L) :
    leOp inst l r = true ↔ inducedLe inst l r := by
  simp [leOp, inducedLe]

/-- Claim C2: the derived equality returns true iff the observable values
agree under the equality of the domain type; it is structural equality of
observable values, independent of the internal representation. -/
theorem eq_iff_get_eq {L T : Type} [DecidableEq T]
    (inst : Lattice L T) (l r : L) :
    eqOp inst l r = true ↔ inst.get l = inst.get r := by
  simp [eqOp]

/-- Claim C3: the derived inequality is exactly the logical negation of the
derived equality, for every implementing type and every pair of values. -/
theorem ne_eq_not_eq {L T : Type} [DecidableEq T]
    (inst : Lattice L T) (l r : L) :
    neOp inst l r = !eqOp inst l r := by
  simp [neOp, eqOp]

/-- Claim C4: the derived less-or-equal never mutates either of its
operands: the left operand is received by value so `join` mutates only the
internal copy, and after the call both caller operands hold the same states
and the same observable values as before; the returned boolean agrees with
the functional description of the operator. -/
theorem le_call_preserves_operands {L T : Type} [DecidableEq T]
    (inst : Lattice L T) (l r : L) :
    (leOpCall inst (l, r)).2.1 = l ∧
      (leOpCall inst (l, r)).2.2 = r ∧
      inst.get (leOpCall inst (l, r)).2.1 = inst.get l ∧
      inst.get (leOpCall inst (l, r)).2.2 = inst.get r ∧
      (leOpCall inst (l, r)).1 = leOp inst l r :=
  ⟨rfl, rfl, rfl, rfl, rfl⟩

/-- Claim C5: a call to `join` mutates only `self`, which becomes the join
of the two operands; the other operand is never mutated, so its state and
its observable value are the same after the call as before. -/
theorem join_call_preserves_other {L T : Type}
    (inst : Lattice L T) (x y : L) :
    (joinCall inst (x, y)).1 = inst.join x y ∧
      (joinCall inst (x, y)).2 = y ∧
      inst.get (joinCall inst (x, y)).2 = inst.get y :=
  ⟨rfl, rfl, rfl⟩

/-- Claim C9: `get` is read-only and side-effect free: a call leaves the
receiver state unchanged, and two calls with no intervening `join` return
the same value. -/
theorem get_call_pure {L T : Type} (inst : Lattice L T) (x : L) :
    (getCall inst x).2 = x ∧
      (getCall inst x).1 = inst.get x ∧
      (getCall inst ((getCall inst x).2)).1 = (getCall inst x).1 :=
  ⟨rfl, rfl, rfl⟩

/-- Claim C6: reflexivity of the derived order: if `join(x, x)`
observationally equals `x` (idempotence at `x`, taken as a hypothesis),
then less-or-equal of `x` with itself returns true. -/
theorem le_refl_of_idem {L T : Type} [DecidableEq T]
    (inst : Lattice L T) (x : L)
    (h : inst.get (inst.join x x) = inst.get x) :
    leOp inst x x = true := by
  simp [leOp, h]

/-- Witness for claim C6 on the integer-max lattice at the value 5. -/
theorem le_refl_of_idem_witness :
    maxNat.get (maxNat.join 5 5) = maxNat.get 5 ∧ leOp maxNat 5 5 = true :=
  ⟨by decide, le_refl_of_idem maxNat 5 (by decide)⟩

/-- Claim C7: antisymmetry of the derived order: for an implementing type
whose join satisfies the observational semilattice laws, if less-or-equal
holds in both directions between `x` and `y`, then the derived equality of
`x` and `y` returns true.  Only commutativity is needed. -/
theorem le_antisymm_of_laws {L T : Type} [DecidableEq T]
    (inst : Lattice L T) (x y : L)
    (hA : ObsAssoc inst) (hC : ObsComm inst) (hI : ObsIdem inst)
    (h1 : leOp inst x y = true) (h2 : leOp inst y x = true) :
    eqOp inst x y = true := by
  simp only [leOp, decide_eq_true_eq] at h1 h2
  simp only [eqOp, decide_eq_true_eq]
  calc inst.get x = inst.get (inst.join y x) := h2.symm
    _ = inst.get (inst.join x y) := hC y x
    _ = inst.get y := h1

/-- Witness for claim C7 on the integer-max lattice at the pair (5, 5). -/
theorem le_antisymm_of_laws_witness :
    leOp maxNat 5 5 = true ∧ leOp maxNat 5 5 = true ∧
      eqOp maxNat 5 5 = true :=
  ⟨by decide, by decide,
    le_antisymm_of_laws maxNat 5 5 maxNat_assoc maxNat_comm maxNat_idem
      (by decide) (by decide)⟩

/-- Counterexample to claim C8 as stated: the implementing type `sumPow`
satisfies observational associativity, commutativity and idempotence, yet
less-or-equal of 1 with `join(1, 1)` returns false, so the observational
semilattice laws alone do not give monotonicity of the derived order. -/
theorem le_join_monotone_cex :
    ObsAssoc sumPow ∧ ObsComm sumPow ∧ ObsIdem sumPow ∧
      leOp sumPow 1 (sumPow.join 1 1) = false :=
  ⟨sumPow_assoc, sumPow_comm, sumPow_idem, by decide⟩

/-- Claim C8 (amended): monotonicity of `join` under the derived order,
for an implementing type whose join satisfies observational associativity,
commutativity and idempotence and moreover respects observational equality:
both operands are less-or-equal to their join. -/
theorem le_join_monotone_of_congr {L T : Type} [DecidableEq T]
    (inst : Lattice L T) (x y : L)
    (hA : ObsAssoc inst) (hC : ObsComm inst) (hI : ObsIdem inst)
    (hG : ObsCongr inst) :
    leOp inst x (inst.join x y) = true ∧
      leOp inst y (inst.join x y) = true := by
  constructor
  · simp only [leOp, decide_eq_true_eq]
    calc inst.get (inst.join x (inst.join x y))
        = inst.get (inst.join (inst.join x x) y) := hA x x y
      _ = inst.get (inst.join x y) := (hG (inst.join x x) x y (hI x)).1
  · simp only [leOp, decide_eq_true_eq]
    calc inst.get (inst.join y (inst.join x y))
        = inst.get (inst.join (inst.join y x) y) := hA y x y
      _ = inst.get (inst.join (inst.join x y) y) :=
        (hG (inst.join y x) (inst.join x y) y (hC y x)).1
      _ = inst.get (inst.join x (inst.join y y)) := (hA x y y).symm
      _ = inst.get (inst.join x y) := (hG (inst.join y y) y x (hI y)).2

/-- Witness for the amended claim C8 on the integer-max lattice at the
pair (3, 7). -/
theorem le_join_monotone_of_congr_witness :
    ObsAssoc maxNat ∧ ObsComm maxNat ∧ ObsIdem maxNat ∧ ObsCongr maxNat ∧
      (leOp maxNat 3 (maxNat.join 3 7) = true ∧
        leOp maxNat 7 (maxNat.join 3 7) = true) :=
  ⟨maxNat_assoc, maxNat_comm, maxNat_idem, maxNat_congr,
    le_join_monotone_of_congr maxNat 3 7 maxNat_assoc maxNat_comm
      maxNat_idem maxNat_congr⟩

/-- Counterexample to claim C10 as stated: the implementing type `sumPow`
satisfies observational associativity, commutativity and idempotence, yet
less-or-equal holds from 3 to 0 and from 0 to 2 while it fails from 3 to 2,
so the observational semilattice laws alone do not give transitivity of the
derived order. -/
theorem le_trans_cex :
    ObsAssoc sumPow ∧ ObsComm sumPow ∧ ObsIdem sumPow ∧
      leOp sumPow 3 0 = true ∧ leOp sumPow 0 2 = true ∧
      leOp sumPow 3 2 = false :=
  ⟨sumPow_assoc, sumPow_comm, sumPow_idem, by decide, by decide, by decide⟩

/-- Claim C10 (amended): transitivity of the derived order, for an
implementing type whose join satisfies observational associativity,
commutativity and idempotence and moreover respects observational
equality: if less-or-equal holds from `x` to `y` and from `y` to `z`, it
holds from `x` to `z`. -/
theorem le_trans_of_congr {L T : Type} [DecidableEq T]
    (inst : Lattice L T) (x y z : L)
    (hA : ObsAssoc inst) (hC : ObsComm inst) (hI : ObsIdem inst)
    (hG : ObsCongr inst)
    (h1 : leOp inst x y = true) (h2 : leOp inst y z = true) :
    leOp inst x z = true := by
  simp only [leOp, decide_eq_true_eq] at h1 h2 ⊢
  calc inst.get (inst.join x z)
      = inst.get (inst.join x (inst.join y z)) :=
        ((hG (inst.join y z) z x h2).2).symm
    _ = inst.get (inst.join (inst.join x y) z) := hA x y z
    _ = inst.get (inst.join y z) := (hG (inst.join x y) y z h1).1
    _ = inst.get z := h2

/-- Witness for the amended claim C10 on the integer-max lattice at the
triple (3, 7, 9). -/
theorem le_trans_of_congr_witness :
    leOp maxNat 3 7 = true ∧ leOp maxNat 7 9 = true ∧
      leOp maxNat 3 9 = true :=
  ⟨by decide, by decide,
    le_trans_of_congr maxNat 3 7 9 maxNat_assoc maxNat_comm maxNat_idem
      maxNat_congr (by decide) (by decide)⟩

end latticeflow
